import Mathlib

/-!
Verification of the taskim calendar/task manager core.

Shallow embedding of:
  * the chrono date model used by the code (NaiveDate as a civil day number,
    DateTime<Utc> as seconds since the Unix epoch),
  * the task ordering store (src/taskim/src/task.rs),
  * the undo/redo stack (src/src/undo.rs and src/taskim/src/undo.rs, whose
    stack logic is identical),
  * the App-level commit/undo/redo handlers for the task collection
    (src/taskim/src/main.rs), and
  * the month grid and navigation (src/src/month_view.rs; the build_weeks in
    src/taskim/src/month_view.rs has the same logic with the month-length
    table inlined).
-/

namespace Taskim

/-! ## Calendar model (chrono)

A NaiveDate is represented by its day number relative to 1970-01-01.
Conversions between day numbers and (year, month, day) triples use the
standard civil-calendar algorithm; daysInMonth follows the month-length
table inlined in src/taskim/src/month_view.rs lines 55-60 (the separate
utils::days_in_month source file is not present; its behaviour is modelled
from the spec and from that inline copy).
-/

def isLeapYear (y : Int) : Bool :=
  y % 4 = 0 && (y % 100 ≠ 0 || y % 400 = 0)

/-- Modelled from the spec: length of a month (28/29/30/31, leap years per
the Gregorian rule), matching the table inlined in the taskim build_weeks.
The catch-all arm (unreachable for real months) returns 31. -/
def days_in_month (y : Int) (m : Nat) : Nat :=
  match m with
  | 1 => 31 | 3 => 31 | 5 => 31 | 7 => 31 | 8 => 31 | 10 => 31 | 12 => 31
  | 4 => 30 | 6 => 30 | 9 => 30 | 11 => 30
  | 2 => if isLeapYear y then 29 else 28
  | _ => 31

/-- Algorithm days_from_civil: (y, m, d) to day number since 1970-01-01. -/
def toDayNumber (y : Int) (m : Nat) (d : Nat) : Int :=
  let y2 : Int := if m ≤ 2 then y - 1 else y
  let era : Int := y2 / 400
  let yoe : Nat := (y2 - era * 400).toNat
  let mp : Nat := if 3 ≤ m then m - 3 else m + 9
  let doy : Nat := (153 * mp + 2) / 5 + (d - 1)
  let doe : Nat := yoe * 365 + yoe / 4 - yoe / 100 + doy
  era * 146097 + (doe : Int) - 719468

/-- Algorithm civil_from_days: day number to (year, month, day). -/
def fromDayNumber (n : Int) : Int × Nat × Nat :=
  let z : Int := n + 719468
  let era : Int := z / 146097
  let doe : Nat := (z - era * 146097).toNat
  let yoe : Nat := (doe - doe / 1460 + doe / 36524 - doe / 146096) / 365
  let y : Int := (yoe : Int) + era * 400
  let doy : Nat := doe - (365 * yoe + yoe / 4 - yoe / 100)
  let mp : Nat := (5 * doy + 2) / 153
  let d : Nat := doy - (153 * mp + 2) / 5 + 1
  let m : Nat := if mp < 10 then mp + 3 else mp - 9
  (if m ≤ 2 then y + 1 else y, m, d)

/-- From chrono: NaiveDate::year(). -/
def yearOf (n : Int) : Int := (fromDayNumber n).1

/-- From chrono: NaiveDate::month(). -/
def monthOf (n : Int) : Nat := (fromDayNumber n).2.1

/-- From chrono: NaiveDate::day(). -/
def dayOf (n : Int) : Nat := (fromDayNumber n).2.2

/-- From chrono: Weekday::num_days_from_sunday of a date: 1970-01-01 was a
Thursday (4 days from Sunday). -/
def num_days_from_sunday (n : Int) : Nat := ((n + 4) % 7).toNat

/-- From chrono: NaiveDate::with_day: same year and month, checked day. -/
def with_day (n : Int) (d : Nat) : Option Int :=
  if 1 ≤ d ∧ d ≤ days_in_month (yearOf n) (monthOf n) then
    some (toDayNumber (yearOf n) (monthOf n) d)
  else none

/-- From chrono: NaiveDate::from_ymd_opt: checked month and day. -/
def from_ymd_opt (y : Int) (m : Nat) (d : Nat) : Option Int :=
  if 1 ≤ m ∧ m ≤ 12 ∧ 1 ≤ d ∧ d ≤ days_in_month y m then
    some (toDayNumber y m d)
  else none

structure TaskComment where
  id : String
  text : String
deriving DecidableEq, Repr

structure Task where
  id : String
  title : String
  start : Int
  end_ : Int
  comments : List TaskComment
  completed : Bool
  order : Nat
deriving DecidableEq, Repr

/-- From chrono: DateTime::date_naive (UTC): the containing civil day. -/
def date_naive (s : Int) : Int := s / 86400

def Task.is_on_date (t : Task) (date : Int) : Bool :=
  date_naive t.start = date

structure TaskData where
  events : List Task
deriving DecidableEq, Repr

/-- Key comparison of sort_by_key(|t| t.order); Rust's sort is stable, as is mergeSort. -/
def ord_le (a b : Task) : Bool := a.order ≤ b.order

def TaskData.get_tasks_for_date (td : TaskData) (date : Int) : List Task :=
  (td.events.filter (fun t => t.is_on_date date)).mergeSort ord_le

/-- Iterator max() with unwrap_or(0), i.e. a fold of Nat.max over the
day's orders starting from 0. -/
def TaskData.max_order_for_date (td : TaskData) (date : Int) : Nat :=
  ((td.events.filter (fun t => t.is_on_date date)).map (fun t => t.order)).foldr Nat.max 0

def TaskData.insert_task_at_order (td : TaskData) (task : Task) (target_order : Nat) : TaskData :=
  let date := date_naive task.start
  let shifted := td.events.map (fun t =>
    if t.is_on_date date && target_order ≤ t.order then { t with order := t.order + 1 } else t)
  ⟨shifted ++ [{ task with order := target_order }]⟩

/-- Search by position + Vec::remove(pos) = erase the first task whose id matches;
then close the gap on the removed task's day. -/
def TaskData.remove_task_and_reorder (td : TaskData) (task_id : String) :
    Option Task × TaskData :=
  match td.events.find? (fun t => t.id = task_id) with
  | none => (none, td)
  | some removed =>
    let rest := td.events.eraseP (fun t => t.id = task_id)
    let date := date_naive removed.start
    (some removed,
     ⟨rest.map (fun t =>
       if t.is_on_date date && removed.order < t.order then { t with order := t.order - 1 } else t)⟩)

/-- The positions (in the events vector) of the tasks on the given day. -/
def TaskData.norm_idxs (td : TaskData) (date : Int) : List Nat :=
  (List.range td.events.length).filter
    (fun i => ((td.events[i]?).map (fun t => t.is_on_date date)).getD false)

/-- Those positions stable-sorted by the task order at each position (ties
keep original position order, as Rust's stable sort keeps original order of
the collected mutable references). -/
def TaskData.norm_sorted_idxs (td : TaskData) (date : Int) : List Nat :=
  (td.norm_idxs date).mergeSort
    (fun i j => ((td.events[i]?).map (fun t => t.order)).getD 0
      ≤ ((td.events[j]?).map (fun t => t.order)).getD 0)

/-- Collect the day's tasks, stable-sort them by order, and renumber them
0..N-1 in that sorted order: each day task's new order is the rank of its
position in the sorted position sequence. -/
def TaskData.normalize_task_order (td : TaskData) (date : Int) : TaskData :=
  ⟨td.events.enum.map (fun p =>
    if p.2.is_on_date date then { p.2 with order := (td.norm_sorted_idxs date).indexOf p.1 }
    else p.2)⟩

inductive Operation where
  | delete_task (task : Task) (original_date : Int)
  | edit_task (task_id : String) (old_task : Task) (new_task : Task)
  | create_task (task : Task)
  | yank_paste (task_id : String) (old_date : Int) (new_date : Int)
deriving DecidableEq, Repr

structure UndoStack where
  undo_operations : List Operation
  redo_operations : List Operation
  max_size : Nat
deriving DecidableEq, Repr

def UndoStack.new (max_size : Nat) : UndoStack := ⟨[], [], max_size⟩

/-- Append, clear the redo stack, drop the oldest (index 0) entry when over
capacity. -/
def UndoStack.push (s : UndoStack) (operation : Operation) : UndoStack :=
  let u := s.undo_operations ++ [operation]
  if s.max_size < u.length then ⟨u.tail, [], s.max_size⟩ else ⟨u, [], s.max_size⟩

/-- Vec::pop takes from the end of the vector. -/
def UndoStack.undo (s : UndoStack) : Option Operation × UndoStack :=
  match s.undo_operations.getLast? with
  | none => (none, s)
  | some operation =>
    (some operation, ⟨s.undo_operations.dropLast, s.redo_operations ++ [operation], s.max_size⟩)

def UndoStack.redo (s : UndoStack) : Option Operation × UndoStack :=
  match s.redo_operations.getLast? with
  | none => (none, s)
  | some operation =>
    (some operation, ⟨s.undo_operations ++ [operation], s.redo_operations.dropLast, s.max_size⟩)

def UndoStack.can_undo (s : UndoStack) : Bool := !s.undo_operations.isEmpty

def UndoStack.can_redo (s : UndoStack) : Bool := !s.redo_operations.isEmpty

/-- Rust iter_mut().find(p) followed by overwriting mutates only the first
matching element. -/
def map_first (p : Task → Bool) (f : Task → Task) : List Task → List Task
  | [] => []
  | t :: ts => if p t then f t :: ts else t :: map_first p f ts

/-- Move a task to a day, keeping its time-of-day and its duration
(and_hms_opt on the task's hour/minute/second, then shift end by the same
duration). -/
def set_start_date (t : Task) (date : Int) : Task :=
  let duration := t.end_ - t.start
  let new_start := date * 86400 + t.start % 86400
  { t with start := new_start, end_ := new_start + duration }

/-- The undo branch of App::handle_normal_mode_key, lines 350-411. -/
def apply_undo_data (operation : Operation) (events : List Task) : List Task :=
  match operation with
  | .delete_task task _ => events ++ [task]
  | .edit_task task_id old_task _ => map_first (fun t => t.id = task_id) (fun _ => old_task) events
  | .create_task task => events.filter (fun t => ¬ t.id = task.id)
  | .yank_paste task_id old_date _ =>
    map_first (fun t => t.id = task_id) (fun t => set_start_date t old_date) events

/-- The redo branch of App::handle_normal_mode_key, lines 412-474. -/
def apply_redo_data (operation : Operation) (events : List Task) : List Task :=
  match operation with
  | .delete_task task _ => events.filter (fun t => ¬ t.id = task.id)
  | .edit_task task_id _ new_task => map_first (fun t => t.id = task_id) (fun _ => new_task) events
  | .create_task task => events ++ [task]
  | .yank_paste task_id _ new_date =>
    map_first (fun t => t.id = task_id) (fun t => set_start_date t new_date) events

/-- Regular insertion path for a new task (main.rs lines 144-153): append
with order max_order_for_date + 1, record CreateTask with the stored task. -/
def commit_create_regular (td : TaskData) (s : UndoStack) (task : Task) :
    TaskData × UndoStack :=
  let date := date_naive task.start
  let task2 := { task with order := td.max_order_for_date date + 1 }
  (⟨td.events ++ [task2]⟩, s.push (.create_task task2))

/-- Insert-at-order path (main.rs lines 133-153): insert_task_at_order is
given a clone, so the recorded CreateTask keeps the task's pre-insertion
order. -/
def commit_create_at_order (td : TaskData) (s : UndoStack) (task : Task) (insert_order : Nat) :
    TaskData × UndoStack :=
  (td.insert_task_at_order task insert_order, s.push (.create_task task))

/-- Edit path (main.rs lines 154-171). -/
def commit_edit (td : TaskData) (s : UndoStack) (task_id : String) (new_task : Task) :
    TaskData × UndoStack :=
  match td.events.find? (fun t => t.id = task_id) with
  | none => (td, s)
  | some old_task =>
    (⟨map_first (fun t => t.id = task_id) (fun _ => new_task) td.events⟩,
     s.push (.edit_task new_task.id old_task new_task))

/-- Delete path ('x' / 'dd', main.rs lines 199-241 and 311-347). -/
def commit_delete (td : TaskData) (s : UndoStack) (task_id : String) :
    TaskData × UndoStack :=
  match td.remove_task_and_reorder task_id with
  | (some task, td2) => (td2, s.push (.delete_task task (date_naive task.start)))
  | (none, _) => (td, s)

/-- The while loop walking back from the first of the month to the previous
Sunday; it runs at most 6 iterations, so fuel 7 is exact. -/
def sunday_start : Nat → Int → Int
  | 0, d => d
  | fuel+1, d => if num_days_from_sunday d = 0 then d else sunday_start fuel (d - 1)

/-- The inner for loop: push current, advance one day, 7 times. -/
def week_row : Nat → Int → List Int
  | 0, _ => []
  | k+1, d => d :: week_row k (d + 1)

/-- The outer for loop over at most 6 weeks with the early-stop check. -/
def build_weeks_go : Nat → Int → Int → List (List Int) → List (List Int)
  | 0, _, _, acc => acc
  | fuel+1, cur, last, acc =>
    let week := week_row 7 cur
    let cur2 := cur + 7
    let acc2 := acc ++ [week]
    if last < cur2 ∧ 4 ≤ acc2.length then acc2
    else build_weeks_go fuel cur2 last acc2

/-- From MonthView::build_weeks. The with_day unwraps always succeed (day 1 and
the month's length are valid days of the month); getD supplies the
never-used default. -/
def build_weeks (date : Int) : List (List Int) :=
  let first_of_month := (with_day date 1).getD date
  let last_of_month := (with_day date (days_in_month (yearOf date) (monthOf date))).getD date
  let start_date := sunday_start 7 first_of_month
  build_weeks_go 6 start_date last_of_month []

inductive SelectionType where
  | day (date : Int)
  | task (task_id : String)
deriving DecidableEq, Repr

structure Selection where
  selection_type : SelectionType
deriving DecidableEq, Repr

structure MonthView where
  current_date : Int
  selection : Selection
  weeks : List (List Int)
  wrap_enabled : Bool
deriving DecidableEq, Repr

def MonthView.new (current_date : Int) : MonthView :=
  ⟨current_date, ⟨.day current_date⟩, build_weeks current_date, false⟩

def MonthView.select_day (mv : MonthView) (date : Int) : MonthView :=
  { mv with selection := ⟨.day date⟩ }

def MonthView.select_task (mv : MonthView) (task_id : String) : MonthView :=
  { mv with selection := ⟨.task task_id⟩ }

def MonthView.transition_to_month (mv : MonthView) (new_date : Int) : MonthView :=
  MonthView.select_day { mv with current_date := new_date, weeks := build_weeks new_date } new_date

/-- From prev_month: the first of the previous month (Jan wraps to Dec of the
previous year); the from_ymd_opt unwrap never fails for real months. -/
def MonthView.prev_month (mv : MonthView) : MonthView :=
  let new_date :=
    if monthOf mv.current_date = 1 then
      (from_ymd_opt (yearOf mv.current_date - 1) 12 1).getD mv.current_date
    else
      (from_ymd_opt (yearOf mv.current_date) (monthOf mv.current_date - 1) 1).getD mv.current_date
  mv.transition_to_month new_date

def MonthView.next_year (mv : MonthView) : MonthView :=
  let new_date := (from_ymd_opt (yearOf mv.current_date + 1) (monthOf mv.current_date) 1).getD mv.current_date
  mv.transition_to_month new_date

def MonthView.prev_year (mv : MonthView) : MonthView :=
  let new_date := (from_ymd_opt (yearOf mv.current_date - 1) (monthOf mv.current_date) 1).getD mv.current_date
  mv.transition_to_month new_date

/-- From move_up (lines 152-221). checked_sub_signed of 7 days is total in this
model (chrono fails only at the NaiveDate range limits). -/
def MonthView.move_up (mv : MonthView) (tasks : List Task) : MonthView :=
  match mv.selection.selection_type with
  | .day date =>
    let new_date := date - 7
    if monthOf new_date ≠ monthOf mv.current_date ∨ yearOf new_date ≠ yearOf mv.current_date then
      let target_day := dayOf date
      let mv1 := mv.prev_month
      let dim := days_in_month (yearOf mv1.current_date) (monthOf mv1.current_date)
      let safe_day := min target_day dim
      match from_ymd_opt (yearOf mv1.current_date) (monthOf mv1.current_date) safe_day with
      | some target_date =>
        let mv2 := mv1.select_day target_date
        match (tasks.filter (fun t => t.is_on_date target_date)).mergeSort ord_le with
        | [] => mv2
        | t :: _ => mv2.select_task t.id
      | none => mv1
    else
      let mv2 := mv.select_day new_date
      match (tasks.filter (fun t => t.is_on_date new_date)).mergeSort ord_le with
      | [] => mv2
      | t :: _ => mv2.select_task t.id
  | .task task_id =>
    match tasks.find? (fun t => t.id = task_id) with
    | none => mv
    | some task =>
      let task_date := date_naive task.start
      let day_tasks := (tasks.filter (fun t => t.is_on_date task_date)).mergeSort ord_le
      match day_tasks.findIdx? (fun t => t.id = task_id) with
      | none => mv
      | some idx =>
        if 0 < idx then
          match day_tasks[idx - 1]? with
          | some prev_task => mv.select_task prev_task.id
          | none => mv
        else mv.select_day task_date

def opA : Operation := .create_task ⟨"a", "A", 0, 3600, [], false, 0⟩

def taskW : Task := ⟨"w", "W", 0, 3600, [], false, 0⟩

/-- Order uniqueness among tasks sharing a calendar day. -/
def day_order_unique (events : List Task) : Prop :=
  events.Pairwise (fun a b => date_naive a.start = date_naive b.start → a.order ≠ b.order)

instance (events : List Task) : Decidable (day_order_unique events) := by
  unfold day_order_unique
  infer_instance

/-- The shift applied by insert_task_at_order. -/
def ins_shift (date : Int) (k : Nat) (t : Task) : Task :=
  if t.is_on_date date && k ≤ t.order then { t with order := t.order + 1 } else t

/-- The gap-closing shift applied by remove_task_and_reorder. -/
def rm_shift (date : Int) (r : Nat) (t : Task) : Task :=
  if t.is_on_date date && r < t.order then { t with order := t.order - 1 } else t

/-- The renumbering applied by normalize_task_order at an indexed position. -/
def nz_shift (td : TaskData) (date : Int) (p : Nat × Task) : Task :=
  if p.2.is_on_date date then { p.2 with order := (td.norm_sorted_idxs date).indexOf p.1 }
  else p.2

def taskA1 : Task := ⟨"a", "A", 0, 3600, [], false, 0⟩

def taskB1 : Task := ⟨"b", "B", 10, 3610, [], false, 1⟩

def taskC1 : Task := ⟨"c", "C", 20, 3620, [], false, 2⟩

def tdU : TaskData := ⟨[taskA1, taskB1, taskC1]⟩

/-- The order-level shift performed on a day's existing orders by an insert
at target order k. -/
def bump (k o : Nat) : Nat := if k ≤ o then o + 1 else o

def taskN2 : Task := ⟨"n", "N", 30, 3630, [], false, 0⟩

/-- The order-level gap-closing shift performed on a day's orders when the
task with order j is removed. -/
def gap_shift (j o : Nat) : Nat := if j < o then o - 1 else o

/-- The multiset of orders present on a day. -/
def day_orders (td : TaskData) (D : Int) : Multiset Nat :=
  (((td.events.filter (fun t => t.is_on_date D)).map (fun t => t.order) : List Nat) : Multiset Nat)

/-- Repeated insertion through insert_task_at_order. -/
def insert_seq (td : TaskData) (l : List (Task × Nat)) : TaskData :=
  List.foldl (fun td p => td.insert_task_at_order p.1 p.2) td l

/-- Every target order is at most the number of tasks already on the day. -/
def valid_insert_seq (td : TaskData) (D : Int) : List (Task × Nat) → Bool
  | [] => true
  | p :: rest =>
    (p.2 ≤ (td.events.filter (fun t => t.is_on_date D)).length)
      && valid_insert_seq (td.insert_task_at_order p.1 p.2) D rest

def taskA2 : Task := ⟨"a", "A2", 0, 3600, [], false, 0⟩

def task8 : Task :=
  ⟨"t8", "T8", (toDayNumber 2024 3 8) * 86400, (toDayNumber 2024 3 8) * 86400 + 3600, [], false, 0⟩

/-! ## Properties. Lemmas build up to one theorem per claim of the
specification, with witnesses and counterexamples at concrete inputs. -/

lemma push_eq (s : UndoStack) (operation : Operation) :
    s.push operation =
      if s.max_size < (s.undo_operations ++ [operation]).length
      then ⟨(s.undo_operations ++ [operation]).tail, [], s.max_size⟩
      else ⟨s.undo_operations ++ [operation], [], s.max_size⟩ := rfl

lemma push_tail_append (u l' : List Operation) (a : Operation) :
    (u ++ [a]).tail ++ l' = (u ++ a :: l').tail := by
  cases u <;> simp

lemma foldl_push_undo (m : Nat) (l : List Operation) :
    ∀ (u r : List Operation), u.length ≤ m →
      (List.foldl UndoStack.push ⟨u, r, m⟩ l).undo_operations
        = (u ++ l).drop ((u ++ l).length - m) := by
  induction l with
  | nil =>
    intro u r h
    simp only [List.foldl_nil, List.append_nil]
    have : u.length - m = 0 := by omega
    simp [this]
  | cons a l' ih =>
    intro u r h
    simp only [List.foldl_cons, push_eq]
    by_cases hc : m < (u ++ [a]).length
    · rw [if_pos hc]
      have hlen : ((u ++ [a]).tail).length ≤ m := by
        simp at hc ⊢; omega
      rw [ih _ [] hlen, push_tail_append u l' a, ← List.drop_one, List.drop_drop]
      have h1 : u.length = m := by simp at hc; omega
      congr 1
      simp only [List.length_drop, List.length_tail, List.length_append, List.length_cons]
      omega
    · rw [if_neg hc]
      have hlen : (u ++ [a]).length ≤ m := by simp at hc ⊢; omega
      rw [ih _ [] hlen]
      simp

/-- Claim C6: pushing max_size + 5 operations onto a fresh UndoStack with no
intervening undo/redo retains exactly max_size operations, dropping the 5
oldest (index 0) entries, never the newest. -/
theorem bounded_undo_depth (max_size : Nat) (ops : List Operation)
    (h : ops.length = max_size + 5) :
    (List.foldl UndoStack.push (UndoStack.new max_size) ops).undo_operations = ops.drop 5 ∧
    (List.foldl UndoStack.push (UndoStack.new max_size) ops).undo_operations.length = max_size := by
  have e := foldl_push_undo max_size ops [] [] (by simp)
  rw [show UndoStack.new max_size = (⟨[], [], max_size⟩ : UndoStack) from rfl, e]
  simp [h]

theorem bounded_undo_depth_witness :
    ((List.replicate 7 opA).length = 2 + 5) ∧
    ((List.foldl UndoStack.push (UndoStack.new 2) (List.replicate 7 opA)).undo_operations
        = (List.replicate 7 opA).drop 5 ∧
     (List.foldl UndoStack.push (UndoStack.new 2) (List.replicate 7 opA)).undo_operations.length = 2) :=
  ⟨by decide, bounded_undo_depth 2 (List.replicate 7 opA) (by decide)⟩

/-- Claim C5: immediately after any push the redo stack is empty, so
can_redo is false and a subsequent redo returns none and leaves the stack
unchanged. -/
theorem push_clears_redo (s : UndoStack) (operation : Operation) :
    (s.push operation).redo_operations = [] ∧
    (s.push operation).can_redo = false ∧
    ((s.push operation).redo).1 = none ∧
    ((s.push operation).redo).2 = s.push operation := by
  rw [push_eq]
  split <;> simp [UndoStack.can_redo, UndoStack.redo]

lemma foldr_max_zero (l : List Nat) (h : ∀ x ∈ l, x = 0) : l.foldr Nat.max 0 = 0 := by
  induction l with
  | nil => rfl
  | cons a l' ih =>
    simp only [List.foldr_cons]
    rw [h a (by simp), ih (fun x hx => h x (by simp [hx]))]
    rfl

/-- Claim C10: max_order_for_date is 0 on a day with no tasks, exactly as on a day
whose orders are all 0, so the regular append path gives the first task of an
empty day order 1, not 0. -/
theorem max_order_empty_day (td : TaskData) (date : Int) (s : UndoStack) (task : Task)
    (hempty : td.events.filter (fun t => t.is_on_date date) = [])
    (hdate : date_naive task.start = date) :
    td.max_order_for_date date = 0 ∧
    (∀ (td2 : TaskData) (d2 : Int), (∀ t ∈ td2.events, t.is_on_date d2 → t.order = 0) →
      td2.max_order_for_date d2 = 0) ∧
    (commit_create_regular td s task).1.events.getLast? = some { task with order := 1 } := by
  have h1 : td.max_order_for_date date = 0 := by
    unfold TaskData.max_order_for_date
    rw [hempty]
    rfl
  refine ⟨h1, ?_, ?_⟩
  · intro td2 d2 hall
    unfold TaskData.max_order_for_date
    apply foldr_max_zero
    intro x hx
    simp only [List.mem_map, List.mem_filter] at hx
    obtain ⟨t, ⟨ht, hon⟩, rfl⟩ := hx
    exact hall t ht hon
  · unfold commit_create_regular
    simp only [hdate, h1]
    rw [List.getLast?_concat]

theorem max_order_empty_day_witness :
    ((⟨[]⟩ : TaskData).events.filter (fun t => t.is_on_date 0) = [] ∧ date_naive taskW.start = 0) ∧
    ((⟨[]⟩ : TaskData).max_order_for_date 0 = 0 ∧
     (∀ (td2 : TaskData) (d2 : Int), (∀ t ∈ td2.events, t.is_on_date d2 → t.order = 0) →
        td2.max_order_for_date d2 = 0) ∧
     (commit_create_regular ⟨[]⟩ (UndoStack.new 50) taskW).1.events.getLast?
        = some { taskW with order := 1 }) :=
  ⟨⟨by decide, by decide⟩, max_order_empty_day ⟨[]⟩ 0 (UndoStack.new 50) taskW (by decide) (by decide)⟩

lemma is_on_date_iff (t : Task) (d : Int) : t.is_on_date d = true ↔ date_naive t.start = d := by
  simp [Task.is_on_date]

lemma insert_events_eq (td : TaskData) (task : Task) (k : Nat) :
    (td.insert_task_at_order task k).events
      = td.events.map (ins_shift (date_naive task.start) k) ++ [{ task with order := k }] := rfl

lemma ins_shift_start (date : Int) (k : Nat) (t : Task) :
    (ins_shift date k t).start = t.start := by
  unfold ins_shift; split <;> rfl

lemma ins_shift_order (date : Int) (k : Nat) (t : Task) :
    (ins_shift date k t).order
      = if date_naive t.start = date ∧ k ≤ t.order then t.order + 1 else t.order := by
  unfold ins_shift
  rcases Decidable.em (date_naive t.start = date ∧ k ≤ t.order) with h | h
  · rw [if_pos h]
    have : (t.is_on_date date && decide (k ≤ t.order)) = true := by
      simp [is_on_date_iff, h.1, h.2]
    simp only [Task.is_on_date] at this ⊢
    rw [if_pos this]
  · rw [if_neg h]
    have : ¬ (t.is_on_date date && decide (k ≤ t.order)) = true := by
      simp [is_on_date_iff]
      intro h1
      exact Nat.lt_of_not_le (fun h2 => h ⟨h1, h2⟩)
    simp only [Task.is_on_date] at this ⊢
    rw [if_neg this]

lemma insert_preserves_unique (td : TaskData) (task : Task) (k : Nat)
    (h : day_order_unique td.events) :
    day_order_unique (td.insert_task_at_order task k).events := by
  rw [day_order_unique, insert_events_eq, List.pairwise_append]
  refine ⟨?_, by simp, ?_⟩
  · rw [List.pairwise_map]
    refine h.imp ?_
    intro a b hab
    rw [ins_shift_start, ins_shift_start, ins_shift_order, ins_shift_order]
    intro hday
    have hne := hab hday
    split_ifs <;> omega
  · intro x hx y hy
    simp only [List.mem_singleton] at hy
    subst hy
    simp only [List.mem_map] at hx
    obtain ⟨a, _, rfl⟩ := hx
    rw [ins_shift_start, ins_shift_order]
    intro hday
    simp only [ins_shift_start] at hday
    split_ifs <;> simp <;> omega

lemma find?_first {α : Type} {p : α → Bool} (l₁ l₂ : List α) (a : α)
    (hfree : ∀ b ∈ l₁, ¬ p b = true) (ha : p a = true) :
    List.find? p (l₁ ++ a :: l₂) = some a := by
  induction l₁ with
  | nil => simp [List.find?_cons, ha]
  | cons x xs ih =>
    have hx : ¬ p x = true := hfree x (by simp)
    rw [List.cons_append, List.find?_cons_of_neg _ hx]
    exact ih (fun b hb => hfree b (by simp [hb]))

lemma rm_shift_start (date : Int) (r : Nat) (t : Task) :
    (rm_shift date r t).start = t.start := by
  unfold rm_shift; split <;> rfl

lemma rm_shift_order (date : Int) (r : Nat) (t : Task) :
    (rm_shift date r t).order
      = if date_naive t.start = date ∧ r < t.order then t.order - 1 else t.order := by
  unfold rm_shift
  rcases Decidable.em (date_naive t.start = date ∧ r < t.order) with h | h
  · rw [if_pos h]
    have : (t.is_on_date date && decide (r < t.order)) = true := by
      simp [is_on_date_iff, h.1, h.2]
    simp only [Task.is_on_date] at this ⊢
    rw [if_pos this]
  · rw [if_neg h]
    have : ¬ (t.is_on_date date && decide (r < t.order)) = true := by
      simp [is_on_date_iff]
      intro h1
      exact Nat.le_of_not_lt (fun h2 => h ⟨h1, h2⟩)
    simp only [Task.is_on_date] at this ⊢
    rw [if_neg this]

lemma remove_events_eq (td : TaskData) (task_id : String) (removed : Task)
    (hf : td.events.find? (fun t => t.id = task_id) = some removed) :
    (td.remove_task_and_reorder task_id).2.events
      = (td.events.eraseP (fun t => t.id = task_id)).map
          (rm_shift (date_naive removed.start) removed.order) := by
  unfold TaskData.remove_task_and_reorder
  rw [hf]
  rfl

lemma remove_preserves_unique (td : TaskData) (task_id : String)
    (h : day_order_unique td.events) :
    day_order_unique (td.remove_task_and_reorder task_id).2.events := by
  rcases hf : td.events.find? (fun t => t.id = task_id) with _ | removed
  · unfold TaskData.remove_task_and_reorder
    rw [hf]
    exact h
  · rw [remove_events_eq td task_id removed hf]
    obtain ⟨a, l₁, l₂, hfree, hpa, hsplit, herase⟩ :=
      List.exists_of_eraseP (List.mem_of_find?_eq_some hf) (List.find?_some hf)
    have ha : a = removed := by
      have h1 := find?_first l₁ l₂ a hfree hpa
      rw [← hsplit, hf] at h1
      exact (Option.some_inj.mp h1).symm
    subst ha
    rw [herase]
    rw [day_order_unique, hsplit, List.pairwise_append, List.pairwise_cons] at h
    obtain ⟨h1, ⟨hrem, h2⟩, hcross⟩ := h
    have hne : ∀ x ∈ l₁ ++ l₂,
        date_naive x.start = date_naive a.start → x.order ≠ a.order := by
      intro x hx hd
      rcases List.mem_append.mp hx with hx1 | hx2
      · exact hcross x hx1 a (by simp) hd
      · intro he
        exact hrem x hx2 hd.symm he.symm
    have hpair : List.Pairwise
        (fun x y => date_naive x.start = date_naive y.start → x.order ≠ y.order) (l₁ ++ l₂) := by
      rw [List.pairwise_append]
      exact ⟨h1, h2, fun x hx y hy => hcross x hx y (List.mem_cons_of_mem _ hy)⟩
    rw [day_order_unique, List.pairwise_map]
    refine hpair.imp_of_mem ?_
    intro x y hx hy hxy
    rw [rm_shift_start, rm_shift_start, rm_shift_order, rm_shift_order]
    intro hday
    have hxy2 := hxy hday
    by_cases hq : date_naive x.start = date_naive a.start
    · have hqy : date_naive y.start = date_naive a.start := by rw [← hday]; exact hq
      have hx2 := hne x hx hq
      have hy2 := hne y hy hqy
      split_ifs <;> omega
    · have hqy : ¬ date_naive y.start = date_naive a.start := by rw [← hday]; exact hq
      rw [if_neg (fun hc => hq hc.1), if_neg (fun hc => hqy hc.1)]
      exact hxy2

lemma normalize_events_eq (td : TaskData) (date : Int) :
    (td.normalize_task_order date).events = td.events.enum.map (nz_shift td date) := rfl

lemma nz_shift_start (td : TaskData) (date : Int) (p : Nat × Task) :
    (nz_shift td date p).start = p.2.start := by
  unfold nz_shift; split <;> rfl

lemma nz_shift_order (td : TaskData) (date : Int) (p : Nat × Task) :
    (nz_shift td date p).order
      = if date_naive p.2.start = date then (td.norm_sorted_idxs date).indexOf p.1
        else p.2.order := by
  unfold nz_shift
  rcases Decidable.em (date_naive p.2.start = date) with h | h
  · rw [if_pos h, if_pos (by simpa [is_on_date_iff] using h)]
  · rw [if_neg h, if_neg (by simpa [is_on_date_iff] using h)]

lemma pairwise_enumFrom {α : Type} {R : α → α → Prop} {l : List α}
    (h : List.Pairwise R l) :
    ∀ n, List.Pairwise (fun p q : Nat × α => p.1 < q.1 ∧ R p.2 q.2) (l.enumFrom n) := by
  induction h with
  | nil => intro n; simp [List.enumFrom]
  | cons ha _ ih =>
    intro n
    rw [List.enumFrom_cons, List.pairwise_cons]
    constructor
    · intro q hq
      obtain ⟨qi, qa⟩ := q
      obtain ⟨h1, _, h3⟩ := List.mem_enumFrom hq
      constructor
      · simp only
        omega
      · exact h3 ▸ ha _ (List.getElem_mem _)
    · exact ih (n + 1)

lemma mem_norm_idxs (td : TaskData) (date : Int) (i : Nat) (t : Task)
    (hget : td.events[i]? = some t) (hdate : date_naive t.start = date) :
    i ∈ td.norm_sorted_idxs date := by
  have hperm := List.mergeSort_perm (td.norm_idxs date)
    (fun i j => ((td.events[i]?).map (fun t => t.order)).getD 0
      ≤ ((td.events[j]?).map (fun t => t.order)).getD 0)
  rw [TaskData.norm_sorted_idxs, hperm.mem_iff]
  rw [TaskData.norm_idxs, List.mem_filter]
  have hlt : i < td.events.length := by
    rcases List.getElem?_eq_some.mp hget with ⟨h, _⟩
    exact h
  refine ⟨List.mem_range.mpr hlt, ?_⟩
  rw [hget]
  simpa [is_on_date_iff] using hdate

lemma normalize_preserves_unique (td : TaskData) (date : Int)
    (h : day_order_unique td.events) :
    day_order_unique (td.normalize_task_order date).events := by
  rw [day_order_unique, normalize_events_eq, List.pairwise_map]
  have hp := pairwise_enumFrom h 0
  refine (hp.imp_of_mem ?_ : _)
  intro p q hpmem hqmem hpq
  obtain ⟨hlt, hR⟩ := hpq
  rw [nz_shift_start, nz_shift_start, nz_shift_order, nz_shift_order]
  intro hday
  by_cases hq2 : date_naive p.2.start = date
  · have hq3 : date_naive q.2.start = date := by rw [← hday]; exact hq2
    rw [if_pos hq2, if_pos hq3]
    have hip : p.1 ∈ td.norm_sorted_idxs date := by
      refine mem_norm_idxs td date p.1 p.2 ?_ hq2
      exact List.mem_enum_iff_getElem?.mp (by simpa using hpmem)
    have hiq : q.1 ∈ td.norm_sorted_idxs date := by
      refine mem_norm_idxs td date q.1 q.2 ?_ hq3
      exact List.mem_enum_iff_getElem?.mp (by simpa using hqmem)
    intro he
    have := (List.indexOf_inj hip hiq).mp he
    omega
  · have hq3 : ¬ date_naive q.2.start = date := by rw [← hday]; exact hq2
    rw [if_neg hq2, if_neg hq3]
    exact hR hday

/-- Claim C1 (amended): the three ordering-store entry points preserve per-day
order uniqueness, for any collection whose tasks satisfy end >= start and
per-day order uniqueness. -/
theorem store_ops_preserve_day_order_unique (td : TaskData) (task : Task) (k : Nat)
    (task_id : String) (date : Int)
    (hend : td.events.all (fun t => t.start ≤ t.end_) = true)
    (h : day_order_unique td.events) :
    day_order_unique (td.insert_task_at_order task k).events ∧
    day_order_unique (td.remove_task_and_reorder task_id).2.events ∧
    day_order_unique (td.normalize_task_order date).events :=
  ⟨insert_preserves_unique td task k h,
   remove_preserves_unique td task_id h,
   normalize_preserves_unique td date h⟩

theorem store_ops_preserve_day_order_unique_witness :
    (tdU.events.all (fun t => t.start ≤ t.end_) = true ∧ day_order_unique tdU.events) ∧
    (day_order_unique (tdU.insert_task_at_order taskA1 1).events ∧
     day_order_unique (tdU.remove_task_and_reorder "b").2.events ∧
     day_order_unique (tdU.normalize_task_order 0).events) :=
  ⟨⟨by decide, by decide⟩,
   store_ops_preserve_day_order_unique tdU taskA1 1 "b" 0 (by decide) (by decide)⟩

/-- Claim C1 counterexample: from a collection satisfying the invariant,
deleting task "b" through the app's delete path and then applying the undo
handler of the recorded DeleteTask operation yields duplicate orders on the
day: the restored task keeps order 1, which the gap-closing shift has
meanwhile given to task "c". -/
theorem undo_delete_breaks_day_order_unique :
    day_order_unique tdU.events ∧
    tdU.events.all (fun t => t.start ≤ t.end_) = true ∧
    (commit_delete tdU (UndoStack.new 50) "b").2.undo.1 = some (.delete_task taskB1 0) ∧
    ¬ day_order_unique
        (apply_undo_data (.delete_task taskB1 0) (commit_delete tdU (UndoStack.new 50) "b").1.events) := by
  refine ⟨by decide, by decide, by decide, by decide⟩

lemma ins_shift_eq (date : Int) (k : Nat) (t : Task) :
    ins_shift date k t
      = if date_naive t.start = date ∧ k ≤ t.order then { t with order := t.order + 1 } else t := by
  unfold ins_shift
  rcases Decidable.em (date_naive t.start = date ∧ k ≤ t.order) with h | h
  · rw [if_pos h, if_pos (by simp [is_on_date_iff, h.1, h.2])]
  · rw [if_neg h]
    rw [if_neg ?_]
    simp only [Bool.and_eq_true, is_on_date_iff, decide_eq_true_eq]
    intro hc
    exact h hc

lemma filter_insert (td : TaskData) (task : Task) (k : Nat) :
    (td.insert_task_at_order task k).events.filter
        (fun t => t.is_on_date (date_naive task.start))
      = (td.events.filter (fun t => t.is_on_date (date_naive task.start))).map
          (ins_shift (date_naive task.start) k)
        ++ [{ task with order := k }] := by
  rw [insert_events_eq, List.filter_append, List.filter_map]
  have h1 : (fun t => t.is_on_date (date_naive task.start)) ∘ ins_shift (date_naive task.start) k
      = fun t => t.is_on_date (date_naive task.start) := by
    funext t
    simp only [Function.comp_apply, Task.is_on_date, ins_shift_start]
  rw [h1]
  congr 1
  simp [Task.is_on_date]

lemma day_orders_insert (td : TaskData) (task : Task) (k : Nat) :
    ((td.insert_task_at_order task k).events.filter
        (fun t => t.is_on_date (date_naive task.start))).map (fun t => t.order)
      = ((td.events.filter (fun t => t.is_on_date (date_naive task.start))).map
          (fun t => t.order)).map (bump k) ++ [k] := by
  rw [filter_insert, List.map_append, List.map_map, List.map_map]
  congr 1
  apply List.map_congr_left
  intro t ht
  have hd : date_naive t.start = date_naive task.start :=
    (is_on_date_iff t _).mp (List.mem_filter.mp ht).2
  simp only [Function.comp_apply, ins_shift_order, bump, hd, true_and]

lemma multiset_bump_range (k : Nat) : ∀ n, k ≤ n →
    Multiset.map (bump k) (Multiset.range n) + {k} = Multiset.range (n + 1) := by
  intro n
  induction n with
  | zero =>
    intro h
    interval_cases k
    simp [Multiset.range_succ]
  | succ m ih =>
    intro h
    rcases Nat.lt_or_ge k (m + 1) with h1 | h1
    · have hk : k ≤ m := by omega
      rw [Multiset.range_succ, Multiset.map_cons, Multiset.cons_add, ih hk]
      have : bump k m = m + 1 := by simp [bump, hk]
      rw [this, ← Multiset.range_succ]
    · have hk : k = m + 1 := by omega
      subst hk
      have : Multiset.map (bump (m + 1)) (Multiset.range (m + 1)) = Multiset.range (m + 1) := by
        rw [Multiset.map_congr rfl ?_, Multiset.map_id]
        intro x hx
        have : x < m + 1 := Multiset.mem_range.mp hx
        simp [bump]
        omega
      rw [this, add_comm, Multiset.singleton_add, ← Multiset.range_succ]

lemma sorted_map_order_of_range (l : List Task) (n : Nat)
    (h : ((l.map (fun t => t.order)) : Multiset Nat) = (Multiset.range n)) :
    (l.mergeSort ord_le).map (fun t => t.order) = List.range n := by
  apply @List.eq_of_perm_of_sorted Nat (fun a b : Nat => a ≤ b) _ _ _
  · refine List.Perm.trans (List.Perm.map _ (List.mergeSort_perm l ord_le)) ?_
    exact Multiset.coe_eq_coe.mp h
  · have hs := @List.sorted_mergeSort Task ord_le
      (fun a b c h1 h2 => by simp only [ord_le, decide_eq_true_eq] at *; omega)
      (fun a b => by simp only [ord_le]; by_cases hab : a.order ≤ b.order <;> simp [hab] <;> omega)
      l
    rw [List.Sorted, List.pairwise_map]
    refine hs.imp ?_
    intro a b hab
    simpa [ord_le] using hab
  · rw [List.Sorted]
    exact (List.pairwise_lt_range n).imp (fun h => Nat.le_of_lt h)

lemma bump_injective (k : Nat) : Function.Injective (bump k) := by
  intro a b
  simp only [bump]
  split_ifs <;> omega

lemma bump_ne (k o : Nat) : bump k o ≠ k := by
  simp only [bump]
  split_ifs <;> omega

/-- Claim C2: insert_task_at_order first increments by exactly 1 the order
of every existing task on the new task's day whose order is at least the
target k, then appends the new task with order k; inserting at k (k at most 3)
into a day with orders 0,1,2 yields orders 0,1,2,3 sorted, with the new
task at position k; duplicate-free day orders stay duplicate-free. -/
theorem insert_at_order_spec (td : TaskData) (task : Task) (k : Nat) :
    (∀ (i : Nat) (t : Task), td.events[i]? = some t →
      (td.insert_task_at_order task k).events[i]?
        = some (if date_naive t.start = date_naive task.start ∧ k ≤ t.order
                then { t with order := t.order + 1 } else t)) ∧
    (td.insert_task_at_order task k).events[td.events.length]? = some { task with order := k } ∧
    (td.insert_task_at_order task k).events.length = td.events.length + 1 ∧
    ((((td.events.filter (fun t => t.is_on_date (date_naive task.start))).map (fun t => t.order)
        : List Nat) : Multiset Nat) = Multiset.range 3 → k ≤ 3 →
      ((td.insert_task_at_order task k).get_tasks_for_date (date_naive task.start)).map
          (fun t => t.order) = List.range 4 ∧
      (((td.insert_task_at_order task k).get_tasks_for_date (date_naive task.start))[k]?).map
          (fun t => (t.id, t.order)) = some (task.id, k)) ∧
    (((td.events.filter (fun t => t.is_on_date (date_naive task.start))).map
        (fun t => t.order)).Nodup →
      (((td.insert_task_at_order task k).events.filter
          (fun t => t.is_on_date (date_naive task.start))).map (fun t => t.order)).Nodup) := by
  have hins := insert_events_eq td task k
  refine ⟨?_, ?_, ?_, ?_, ?_⟩
  · intro i t ht
    have hi : i < td.events.length := by
      rcases List.getElem?_eq_some.mp ht with ⟨h, _⟩
      exact h
    rw [hins, List.getElem?_append_left (by simpa using hi), List.getElem?_map, ht,
      Option.map_some', ins_shift_eq]
  · rw [hins, List.getElem?_append_right (by simp)]
    simp
  · rw [hins]; simp
  · intro h3 hk
    have hc1 : ((td.insert_task_at_order task k).get_tasks_for_date
        (date_naive task.start)).map (fun t => t.order) = List.range 4 := by
      unfold TaskData.get_tasks_for_date
      apply sorted_map_order_of_range
      rw [day_orders_insert, ← Multiset.coe_add, ← Multiset.map_coe, h3, Multiset.coe_singleton]
      exact multiset_bump_range k 3 hk
    refine ⟨hc1, ?_⟩
    have hlen : ((td.insert_task_at_order task k).get_tasks_for_date
        (date_naive task.start)).length = 4 := by
      have h4 := congrArg List.length hc1
      simpa using h4
    rcases hg : ((td.insert_task_at_order task k).get_tasks_for_date
        (date_naive task.start))[k]? with _ | t2
    · rw [List.getElem?_eq_none_iff] at hg
      omega
    · have hord : t2.order = k := by
        have h1 : (((td.insert_task_at_order task k).get_tasks_for_date
            (date_naive task.start)).map (fun t => t.order))[k]? = some t2.order := by
          rw [List.getElem?_map, hg]
          simp
        rw [hc1, List.getElem?_range (by omega)] at h1
        exact (Option.some_inj.mp h1).symm
      have hmem : t2 ∈ (td.insert_task_at_order task k).get_tasks_for_date
          (date_naive task.start) := List.getElem?_mem hg
      unfold TaskData.get_tasks_for_date at hmem
      rw [(List.mergeSort_perm _ _).mem_iff, List.mem_filter] at hmem
      obtain ⟨hmem2, hdate2⟩ := hmem
      rw [hins] at hmem2
      rcases List.mem_append.mp hmem2 with hmap | hsing
      · exfalso
        obtain ⟨a, _, heq⟩ := List.mem_map.mp hmap
        have hda : date_naive a.start = date_naive task.start := by
          have h5 := (is_on_date_iff t2 _).mp hdate2
          rw [← heq, ins_shift_start] at h5
          exact h5
        have h6 : t2.order = bump k a.order := by
          rw [← heq, ins_shift_order]
          simp only [bump, hda, true_and]
        rw [hord] at h6
        exact bump_ne k a.order h6.symm
      · simp only [List.mem_singleton] at hsing
        subst hsing
        simp
  · intro hnd
    rw [day_orders_insert, List.nodup_append]
    refine ⟨hnd.map (bump_injective k), by simp, ?_⟩
    intro x hx
    simp only [List.mem_map] at hx
    obtain ⟨o, _, rfl⟩ := hx
    simp only [List.mem_singleton]
    exact bump_ne k o

theorem insert_at_order_spec_witness :
    ((((tdU.events.filter (fun t => t.is_on_date (date_naive taskN2.start))).map (fun t => t.order)
        : List Nat) : Multiset Nat) = Multiset.range 3 ∧ (1 : Nat) ≤ 3 ∧
      tdU.events[0]? = some taskA1 ∧
      ((tdU.events.filter (fun t => t.is_on_date (date_naive taskN2.start))).map
        (fun t => t.order)).Nodup) ∧
    (((tdU.insert_task_at_order taskN2 1).get_tasks_for_date (date_naive taskN2.start)).map
        (fun t => t.order) = List.range 4 ∧
     (((tdU.insert_task_at_order taskN2 1).get_tasks_for_date (date_naive taskN2.start))[1]?).map
        (fun t => (t.id, t.order)) = some (taskN2.id, 1)) ∧
    (tdU.insert_task_at_order taskN2 1).events[0]?
      = some (if date_naive taskA1.start = date_naive taskN2.start ∧ 1 ≤ taskA1.order
              then { taskA1 with order := taskA1.order + 1 } else taskA1) ∧
    (((tdU.insert_task_at_order taskN2 1).events.filter
        (fun t => t.is_on_date (date_naive taskN2.start))).map (fun t => t.order)).Nodup :=
  ⟨⟨by decide, by decide, by decide, by decide⟩,
   (insert_at_order_spec tdU taskN2 1).2.2.2.1 (by decide) (by decide),
   (insert_at_order_spec tdU taskN2 1).1 0 taskA1 (by decide),
   (insert_at_order_spec tdU taskN2 1).2.2.2.2 (by decide)⟩

lemma multiset_gap_range (j : Nat) : ∀ n, j < n →
    Multiset.map (gap_shift j) ((Multiset.range n).erase j) = Multiset.range (n - 1) := by
  intro n
  induction n with
  | zero => omega
  | succ m ih =>
    intro h
    rcases Nat.lt_or_ge j m with h1 | h1
    · rw [Multiset.range_succ, Multiset.erase_cons_tail _ (show (m : Nat) ≠ j by omega), Multiset.map_cons, ih h1]
      have e1 : gap_shift j m = m - 1 := by simp [gap_shift, h1]
      rw [e1]
      have e2 : ((m - 1) ::ₘ Multiset.range (m - 1) : Multiset Nat) = Multiset.range m := by
        conv_rhs => rw [show m = (m - 1) + 1 by omega]
        rw [Multiset.range_succ]
      rw [e2]
      congr 1
    · have hj : j = m := by omega
      subst hj
      rw [Multiset.range_succ, Multiset.erase_cons_head]
      simp only [Nat.add_sub_cancel]
      rw [Multiset.map_congr rfl ?_, Multiset.map_id]
      intro x hx
      have : x < j := Multiset.mem_range.mp hx
      simp [gap_shift]
      omega

lemma day_orders_insert_multiset (td : TaskData) (task : Task) (k : Nat) (n : Nat) (D : Int)
    (hD : date_naive task.start = D)
    (h : day_orders td D = Multiset.range n) (hk : k ≤ n) :
    day_orders (td.insert_task_at_order task k) D = Multiset.range (n + 1) := by
  subst hD
  unfold day_orders at *
  rw [day_orders_insert, ← Multiset.coe_add, ← Multiset.map_coe, h, Multiset.coe_singleton]
  exact multiset_bump_range k n hk

lemma day_orders_remove (td : TaskData) (task_id : String) (removed : Task) (D : Int)
    (hf : td.events.find? (fun t => t.id = task_id) = some removed)
    (hD : date_naive removed.start = D) :
    day_orders (td.remove_task_and_reorder task_id).2 D
      = Multiset.map (gap_shift removed.order) ((day_orders td D).erase removed.order) := by
  subst hD
  unfold day_orders
  rw [remove_events_eq td task_id removed hf]
  obtain ⟨a, l₁, l₂, hfree, hpa, hsplit, herase⟩ :=
    List.exists_of_eraseP (List.mem_of_find?_eq_some hf) (List.find?_some hf)
  have ha : a = removed := by
    have h1 := find?_first l₁ l₂ a hfree hpa
    rw [← hsplit, hf] at h1
    exact (Option.some_inj.mp h1).symm
  subst ha
  rw [herase]
  have hg : (fun t => t.is_on_date (date_naive a.start))
      ∘ rm_shift (date_naive a.start) a.order = fun t => t.is_on_date (date_naive a.start) := by
    funext t
    simp only [Function.comp_apply, Task.is_on_date, rm_shift_start]
  have hL : ((l₁ ++ l₂).filter (fun t => t.is_on_date (date_naive a.start))).map
        (fun t => (rm_shift (date_naive a.start) a.order t).order)
      = ((l₁ ++ l₂).filter (fun t => t.is_on_date (date_naive a.start))).map
          (fun t => gap_shift a.order t.order) := by
    apply List.map_congr_left
    intro t ht
    have hd : date_naive t.start = date_naive a.start :=
      (is_on_date_iff t _).mp (List.mem_filter.mp ht).2
    rw [rm_shift_order]
    simp only [gap_shift, hd, true_and]
  rw [List.filter_map, hg, List.map_map]
  rw [show ((fun t => t.order) ∘ rm_shift (date_naive a.start) a.order)
      = fun t => (rm_shift (date_naive a.start) a.order t).order from rfl, hL]
  have hsplitF : td.events.filter (fun t => t.is_on_date (date_naive a.start))
      = (l₁.filter (fun t => t.is_on_date (date_naive a.start)))
        ++ a :: (l₂.filter (fun t => t.is_on_date (date_naive a.start))) := by
    rw [hsplit, List.filter_append, List.filter_cons_of_pos (by simp [Task.is_on_date])]
  rw [hsplitF]
  have hperm : List.Perm
      (((l₁.filter (fun t => t.is_on_date (date_naive a.start)))
        ++ a :: (l₂.filter (fun t => t.is_on_date (date_naive a.start)))).map (fun t => t.order))
      (a.order :: ((l₁ ++ l₂).filter (fun t => t.is_on_date (date_naive a.start))).map
          (fun t => t.order)) := by
    simp only [List.filter_append, List.map_append, List.map_cons]
    exact List.perm_middle
  rw [Multiset.coe_eq_coe.mpr hperm, ← Multiset.cons_coe, Multiset.erase_cons_head,
    ← Multiset.map_coe, ← Multiset.map_coe, Multiset.map_map]
  rfl

lemma insert_seq_day_orders (D : Int) : ∀ (l : List (Task × Nat)) (td : TaskData) (n : Nat),
    day_orders td D = Multiset.range n →
    (∀ p ∈ l, date_naive p.1.start = D) →
    valid_insert_seq td D l = true →
    day_orders (insert_seq td l) D = Multiset.range (n + l.length) := by
  intro l
  induction l with
  | nil =>
    intro td n h _ _
    simpa [insert_seq] using h
  | cons p rest ih =>
    intro td n h hdays hvalid
    simp only [valid_insert_seq, Bool.and_eq_true, decide_eq_true_eq] at hvalid
    obtain ⟨hk, hrest⟩ := hvalid
    have hpD : date_naive p.1.start = D := hdays p (by simp)
    have hn : (td.events.filter (fun t => t.is_on_date D)).length = n := by
      have hc := congrArg Multiset.card h
      simpa [day_orders] using hc
    have hstep : day_orders (td.insert_task_at_order p.1 p.2) D = Multiset.range (n + 1) :=
      day_orders_insert_multiset td p.1 p.2 n D hpD h (by omega)
    have hrest2 : ∀ q ∈ rest, date_naive q.1.start = D := fun q hq => hdays q (by simp [hq])
    have := ih (td.insert_task_at_order p.1 p.2) (n + 1) hstep hrest2 hrest
    rw [show insert_seq td (p :: rest) = insert_seq (td.insert_task_at_order p.1 p.2) rest
      from rfl, this]
    congr 1
    simp
    omega

/-- Claim C3 (amended): starting from a day with no tasks, any sequence of inserts
whose target orders never exceed the day's current task count, followed by
one remove of a task on that day, leaves the day's sorted orders as the
contiguous range 0..n-2. -/
theorem insert_seq_remove_contiguous (td0 : TaskData) (D : Int) (inserts : List (Task × Nat))
    (task_id : String) (removed : Task)
    (hempty : td0.events.filter (fun t => t.is_on_date D) = [])
    (hdays : ∀ p ∈ inserts, date_naive p.1.start = D)
    (hvalid : valid_insert_seq td0 D inserts = true)
    (hfind : (insert_seq td0 inserts).events.find? (fun t => t.id = task_id) = some removed)
    (hremD : date_naive removed.start = D) :
    (((insert_seq td0 inserts).remove_task_and_reorder task_id).2.get_tasks_for_date D).map
        (fun t => t.order) = List.range (inserts.length - 1) := by
  have h0 : day_orders td0 D = Multiset.range 0 := by
    simp [day_orders, hempty]
  have h1 := insert_seq_day_orders D inserts td0 0 h0 hdays hvalid
  rw [Nat.zero_add] at h1
  have hmem : removed.order ∈ day_orders (insert_seq td0 inserts) D := by
    unfold day_orders
    have hmem1 : removed ∈ (insert_seq td0 inserts).events := List.mem_of_find?_eq_some hfind
    have hmem2 : removed ∈ (insert_seq td0 inserts).events.filter
        (fun t => t.is_on_date D) :=
      List.mem_filter.mpr ⟨hmem1, by simpa [is_on_date_iff] using hremD⟩
    simpa using List.mem_map_of_mem _ hmem2
  rw [h1] at hmem
  have hr : removed.order < inserts.length := Multiset.mem_range.mp hmem
  have h2 := day_orders_remove (insert_seq td0 inserts) task_id removed D hfind hremD
  have h3 : day_orders ((insert_seq td0 inserts).remove_task_and_reorder task_id).2 D
      = Multiset.range (inserts.length - 1) := by
    rw [h2, h1]
    exact multiset_gap_range removed.order _ hr
  unfold TaskData.get_tasks_for_date
  apply sorted_map_order_of_range
  simpa [day_orders] using h3

theorem insert_seq_remove_contiguous_witness :
    (((⟨[]⟩ : TaskData).events.filter (fun t => t.is_on_date 0) = []) ∧
     (∀ p ∈ [((taskA1 : Task), (0 : Nat)), (taskB1, 1), (taskC1, 0)], date_naive p.1.start = 0) ∧
     valid_insert_seq ⟨[]⟩ 0 [(taskA1, 0), (taskB1, 1), (taskC1, 0)] = true ∧
     (insert_seq ⟨[]⟩ [(taskA1, 0), (taskB1, 1), (taskC1, 0)]).events.find?
        (fun t => t.id = "b") = some { taskB1 with order := 2 } ∧
     date_naive ({ taskB1 with order := 2 } : Task).start = 0) ∧
    (((insert_seq ⟨[]⟩ [(taskA1, 0), (taskB1, 1), (taskC1, 0)]).remove_task_and_reorder
        "b").2.get_tasks_for_date 0).map (fun t => t.order)
      = List.range ([((taskA1 : Task), (0 : Nat)), (taskB1, 1), (taskC1, 0)].length - 1) :=
  ⟨⟨by decide, by decide, by decide, by decide, by decide⟩,
   insert_seq_remove_contiguous ⟨[]⟩ 0 [(taskA1, 0), (taskB1, 1), (taskC1, 0)] "b"
     { taskB1 with order := 2 } (by decide) (by decide) (by decide) (by decide) (by decide)⟩

unseal List.merge List.mergeSort in
/-- Claim C3 counterexample: with an arbitrary (gap-creating) target order, the
orders after one remove are not contiguous from 0: inserting at order 1 into
an empty day, then at order 0, then removing the order-0 task leaves the
day's sorted orders as [1], not [0]. -/
theorem insert_seq_remove_not_contiguous :
    ((⟨[]⟩ : TaskData).events.filter (fun t => t.is_on_date 0) = []) ∧
    ([((taskA1 : Task), (1 : Nat)), (taskB1, 0)].all (fun p => date_naive p.1.start = 0) = true) ∧
    ((insert_seq ⟨[]⟩ [(taskA1, 1), (taskB1, 0)]).events.find? (fun t => t.id = "b")
      = some { taskB1 with order := 0 }) ∧
    date_naive ({ taskB1 with order := 0 } : Task).start = 0 ∧
    (((insert_seq ⟨[]⟩ [(taskA1, 1), (taskB1, 0)]).remove_task_and_reorder
        "b").2.get_tasks_for_date 0).map (fun t => t.order) = [1] ∧
    ([1] : List Nat) ≠ List.range ([((taskA1 : Task), (1 : Nat)), (taskB1, 0)].length - 1) := by
  refine ⟨by decide, by decide, by decide, by decide, by decide, by decide⟩

lemma rm_shift_id (date : Int) (r : Nat) (t : Task) : (rm_shift date r t).id = t.id := by
  unfold rm_shift; split <;> rfl

lemma map_first_round (p : Task → Bool) (newT oldT : Task) (hpn : p newT = true)
    (hpo : p oldT = true) :
    ∀ l : List Task,
      map_first p (fun _ => newT) (map_first p (fun _ => oldT) (map_first p (fun _ => newT) l))
        = map_first p (fun _ => newT) l := by
  intro l
  induction l with
  | nil => rfl
  | cons t ts ih =>
    by_cases hp : p t = true
    · simp only [map_first, hp, if_pos, hpn, hpo]
    · simp only [map_first, hp, if_neg, Bool.not_eq_true] at *
      simp [hp, ih]

lemma push_undo_redo (s : UndoStack) (op : Operation) (h : 1 ≤ s.max_size) :
    ((s.push op).undo).1 = some op ∧ ((((s.push op).undo).2).redo).1 = some op := by
  rw [push_eq]
  by_cases hc : s.max_size < (s.undo_operations ++ [op]).length
  · rw [if_pos hc]
    have hne : s.undo_operations ≠ [] := by
      intro he
      rw [he] at hc
      simp at hc
      omega
    obtain ⟨x, xs, he⟩ := List.exists_cons_of_ne_nil hne
    rw [he]
    simp only [List.cons_append, List.tail_cons]
    unfold UndoStack.undo
    rw [List.getLast?_concat]
    simp only
    unfold UndoStack.redo
    rw [List.getLast?_concat]
    simp
  · rw [if_neg hc]
    unfold UndoStack.undo
    rw [List.getLast?_concat]
    simp only
    unfold UndoStack.redo
    rw [List.getLast?_concat]
    simp

lemma commit_delete_eq (td : TaskData) (s : UndoStack) (del_id : String) (removedTask : Task)
    (hf : td.events.find? (fun t => t.id = del_id) = some removedTask) :
    commit_delete td s del_id
      = ((td.remove_task_and_reorder del_id).2,
         s.push (.delete_task removedTask (date_naive removedTask.start))) := by
  unfold commit_delete
  have h1 : td.remove_task_and_reorder del_id
      = (some removedTask, (td.remove_task_and_reorder del_id).2) := by
    unfold TaskData.remove_task_and_reorder
    rw [hf]
  rw [h1]

lemma commit_edit_eq (td : TaskData) (s : UndoStack) (task_id : String) (oldTask newTask : Task)
    (hf : td.events.find? (fun t => t.id = task_id) = some oldTask) :
    commit_edit td s task_id newTask
      = (⟨map_first (fun t => t.id = task_id) (fun _ => newTask) td.events⟩,
         s.push (.edit_task newTask.id oldTask newTask)) := by
  unfold commit_edit
  rw [hf]

/-- Claim C4 (amended): commit-undo-redo round trip for edits, deletes and
regular-append creates returns the task collection to its post-commit state;
the undo stack hands back exactly the recorded operation on undo and again
on redo. -/
theorem undo_redo_round_trip (td : TaskData) (s : UndoStack) (task newTask : Task)
    (task_id del_id : String) (oldTask removedTask : Task)
    (hmax : 1 ≤ s.max_size)
    (hfresh : ∀ t ∈ td.events, t.id ≠ task.id)
    (hedit : td.events.find? (fun t => t.id = task_id) = some oldTask)
    (hid : newTask.id = task_id)
    (hnodup : (td.events.map (fun t => t.id)).Nodup)
    (hdel : td.events.find? (fun t => t.id = del_id) = some removedTask) :
    (apply_redo_data
        (.create_task { task with order := td.max_order_for_date (date_naive task.start) + 1 })
        (apply_undo_data
          (.create_task { task with order := td.max_order_for_date (date_naive task.start) + 1 })
          (commit_create_regular td s task).1.events)
      = (commit_create_regular td s task).1.events ∧
      ((commit_create_regular td s task).2.undo).1
        = some (.create_task { task with order := td.max_order_for_date (date_naive task.start) + 1 }) ∧
      ((((commit_create_regular td s task).2.undo).2).redo).1
        = some (.create_task { task with order := td.max_order_for_date (date_naive task.start) + 1 })) ∧
    (apply_redo_data (.edit_task newTask.id oldTask newTask)
        (apply_undo_data (.edit_task newTask.id oldTask newTask) (commit_edit td s task_id newTask).1.events)
      = (commit_edit td s task_id newTask).1.events ∧
      ((commit_edit td s task_id newTask).2.undo).1 = some (.edit_task newTask.id oldTask newTask) ∧
      ((((commit_edit td s task_id newTask).2.undo).2).redo).1
        = some (.edit_task newTask.id oldTask newTask)) ∧
    (apply_redo_data (.delete_task removedTask (date_naive removedTask.start))
        (apply_undo_data (.delete_task removedTask (date_naive removedTask.start))
          (commit_delete td s del_id).1.events)
      = (commit_delete td s del_id).1.events ∧
      ((commit_delete td s del_id).2.undo).1
        = some (.delete_task removedTask (date_naive removedTask.start)) ∧
      ((((commit_delete td s del_id).2.undo).2).redo).1
        = some (.delete_task removedTask (date_naive removedTask.start))) := by
  refine ⟨⟨?_, ?_, ?_⟩, ⟨?_, ?_, ?_⟩, ⟨?_, ?_, ?_⟩⟩
  · -- create data round trip
    simp only [commit_create_regular, apply_undo_data, apply_redo_data]
    rw [List.filter_append]
    have h1 : td.events.filter
        (fun t => ¬ t.id = ({ task with order := td.max_order_for_date (date_naive task.start) + 1 } : Task).id)
        = td.events := by
      rw [List.filter_eq_self]
      intro t ht
      simpa using hfresh t ht
    rw [h1]
    simp
  · exact (push_undo_redo s _ hmax).1
  · exact (push_undo_redo s _ hmax).2
  · -- edit data round trip
    rw [commit_edit_eq td s task_id oldTask newTask hedit]
    simp only [apply_undo_data, apply_redo_data]
    rw [hid]
    exact map_first_round _ newTask oldTask (by simp [hid]) (by simpa using List.find?_some hedit) td.events
  · rw [commit_edit_eq td s task_id oldTask newTask hedit]
    exact (push_undo_redo s _ hmax).1
  · rw [commit_edit_eq td s task_id oldTask newTask hedit]
    exact (push_undo_redo s _ hmax).2
  · -- delete data round trip
    rw [commit_delete_eq td s del_id removedTask hdel]
    simp only [apply_undo_data, apply_redo_data]
    rw [List.filter_append]
    have hids : removedTask.id ∉ (td.events.eraseP (fun t => t.id = del_id)).map (fun t => t.id) := by
      obtain ⟨a, l₁, l₂, hfree, hpa, hsplit, herase⟩ :=
        List.exists_of_eraseP (List.mem_of_find?_eq_some hdel) (List.find?_some hdel)
      have ha : a = removedTask := by
        have h1 := find?_first l₁ l₂ a hfree hpa
        rw [← hsplit, hdel] at h1
        exact (Option.some_inj.mp h1).symm
      subst ha
      rw [herase]
      rw [hsplit] at hnodup
      have hperm2 : List.Perm
          ((l₁ ++ a :: l₂).map (fun t => t.id))
          (a.id :: (l₁ ++ l₂).map (fun t => t.id)) := by
        simp only [List.map_append, List.map_cons]
        exact List.perm_middle
      have hnd2 := hperm2.nodup hnodup
      exact (List.nodup_cons.mp hnd2).1
    have h1 : ((td.remove_task_and_reorder del_id).2.events).filter
        (fun t => ¬ t.id = removedTask.id) = (td.remove_task_and_reorder del_id).2.events := by
      rw [List.filter_eq_self]
      intro t ht
      rw [remove_events_eq td del_id removedTask hdel] at ht
      simp only [List.mem_map] at ht
      obtain ⟨a, ha, rfl⟩ := ht
      have hmem3 : a.id ∈ (td.events.eraseP (fun t => t.id = del_id)).map (fun t => t.id) :=
        List.mem_map_of_mem _ ha
      simp only [rm_shift_id, decide_not, Bool.not_eq_true', decide_eq_false_iff_not]
      intro hc
      exact hids (hc ▸ hmem3)
    rw [h1]
    have h2 : List.filter (fun t => decide ¬ t.id = removedTask.id) [removedTask] = [] := by
      simp
    rw [h2, List.append_nil]
  · rw [commit_delete_eq td s del_id removedTask hdel]
    exact (push_undo_redo s _ hmax).1
  · rw [commit_delete_eq td s del_id removedTask hdel]
    exact (push_undo_redo s _ hmax).2

theorem undo_redo_round_trip_witness :
    (1 ≤ (UndoStack.new 50).max_size ∧
     tdU.events.all (fun t => ¬ t.id = taskN2.id) = true ∧
     tdU.events.find? (fun t => t.id = "a") = some taskA1 ∧
     taskA2.id = "a" ∧
     (tdU.events.map (fun t => t.id)).Nodup ∧
     tdU.events.find? (fun t => t.id = "c") = some taskC1) ∧
    (apply_redo_data
        (.create_task { taskN2 with order := tdU.max_order_for_date (date_naive taskN2.start) + 1 })
        (apply_undo_data
          (.create_task { taskN2 with order := tdU.max_order_for_date (date_naive taskN2.start) + 1 })
          (commit_create_regular tdU (UndoStack.new 50) taskN2).1.events)
      = (commit_create_regular tdU (UndoStack.new 50) taskN2).1.events) ∧
    (apply_redo_data (.edit_task taskA2.id taskA1 taskA2)
        (apply_undo_data (.edit_task taskA2.id taskA1 taskA2)
          (commit_edit tdU (UndoStack.new 50) "a" taskA2).1.events)
      = (commit_edit tdU (UndoStack.new 50) "a" taskA2).1.events) ∧
    (apply_redo_data (.delete_task taskC1 (date_naive taskC1.start))
        (apply_undo_data (.delete_task taskC1 (date_naive taskC1.start))
          (commit_delete tdU (UndoStack.new 50) "c").1.events)
      = (commit_delete tdU (UndoStack.new 50) "c").1.events) :=
  ⟨⟨by decide, by decide, by decide, by decide, by decide, by decide⟩,
   ((undo_redo_round_trip tdU (UndoStack.new 50) taskN2 taskA2 "a" "c" taskA1 taskC1
      (by decide) (by decide) (by decide) (by decide) (by decide) (by decide)).1).1,
   ((undo_redo_round_trip tdU (UndoStack.new 50) taskN2 taskA2 "a" "c" taskA1 taskC1
      (by decide) (by decide) (by decide) (by decide) (by decide) (by decide)).2.1).1,
   ((undo_redo_round_trip tdU (UndoStack.new 50) taskN2 taskA2 "a" "c" taskA1 taskC1
      (by decide) (by decide) (by decide) (by decide) (by decide) (by decide)).2.2).1⟩

/-- Claim C4 counterexample: a create committed through insert_task_at_order
records the task's pre-insertion order (0) in the CreateTask operation, so
redo re-inserts it with order 0 instead of the target order 1: the round
trip does not restore the post-commit collection. -/
theorem create_at_order_round_trip_fails :
    (commit_create_at_order tdU (UndoStack.new 50) taskN2 1).2.undo.1
      = some (.create_task taskN2) ∧
    apply_redo_data (.create_task taskN2)
        (apply_undo_data (.create_task taskN2)
          (commit_create_at_order tdU (UndoStack.new 50) taskN2 1).1.events)
      ≠ (commit_create_at_order tdU (UndoStack.new 50) taskN2 1).1.events := by
  refine ⟨by decide, by decide⟩

lemma days_in_month_bounds (y : Int) (m : Nat) :
    28 ≤ days_in_month y m ∧ days_in_month y m ≤ 31 := by
  unfold days_in_month
  split <;> first | omega | (split <;> omega)

lemma with_day_one (n : Int) :
    with_day n 1 = some (toDayNumber (yearOf n) (monthOf n) 1) := by
  unfold with_day
  rw [if_pos]
  exact ⟨le_refl 1, by have := days_in_month_bounds (yearOf n) (monthOf n); omega⟩

lemma with_day_dim (n : Int) :
    with_day n (days_in_month (yearOf n) (monthOf n))
      = some (toDayNumber (yearOf n) (monthOf n) (days_in_month (yearOf n) (monthOf n))) := by
  unfold with_day
  rw [if_pos]
  exact ⟨by have := days_in_month_bounds (yearOf n) (monthOf n); omega, le_refl _⟩

lemma toDayNumber_linear (y : Int) (m : Nat) (d : Nat) (hd : 1 ≤ d) :
    toDayNumber y m d = toDayNumber y m 1 + ((d : Int) - 1) := by
  by_cases hm : m ≤ 2
  · simp only [toDayNumber, if_pos hm, if_neg (show ¬ 3 ≤ m by omega)]
    omega
  · simp only [toDayNumber, if_neg hm, if_pos (show 3 ≤ m by omega)]
    omega

lemma ndfs_lt_7 (n : Int) : num_days_from_sunday n < 7 := by
  unfold num_days_from_sunday
  omega

lemma sunday_start_spec (fuel : Nat) (n : Int) (h : num_days_from_sunday n < fuel) :
    sunday_start fuel n = n - num_days_from_sunday n := by
  induction fuel generalizing n with
  | zero => omega
  | succ f ih =>
    rw [sunday_start]
    by_cases h0 : num_days_from_sunday n = 0
    · simp [h0]
    · have e1 : num_days_from_sunday (n - 1) = num_days_from_sunday n - 1 := by
        unfold num_days_from_sunday at *
        omega
      rw [if_neg h0, ih (n - 1) (by omega)]
      rw [e1]
      have : 1 ≤ num_days_from_sunday n := by omega
      push_cast
      omega

lemma ndfs_sunday_start (n : Int) :
    num_days_from_sunday (n - num_days_from_sunday n) = 0 := by
  unfold num_days_from_sunday
  omega

lemma ndfs_shift (s : Int) (k : Nat) (h : num_days_from_sunday s = 0) :
    num_days_from_sunday (s + 7 * k) = 0 := by
  unfold num_days_from_sunday at *
  omega

lemma week_row_eq (d : Int) : week_row 7 d = [d, d+1, d+2, d+3, d+4, d+5, d+6] := by
  simp only [week_row, List.cons.injEq]
  norm_num
  omega

lemma build_weeks_go_6 (s last : Int) :
    build_weeks_go 6 s last []
      = if last < s + 28 then
          [week_row 7 s, week_row 7 (s+7), week_row 7 (s+14), week_row 7 (s+21)]
        else if last < s + 35 then
          [week_row 7 s, week_row 7 (s+7), week_row 7 (s+14), week_row 7 (s+21), week_row 7 (s+28)]
        else
          [week_row 7 s, week_row 7 (s+7), week_row 7 (s+14), week_row 7 (s+21), week_row 7 (s+28),
           week_row 7 (s+35)] := by
  simp only [build_weeks_go, List.nil_append, List.cons_append, List.length_append,
    List.length_cons, List.length_nil, List.length_singleton]
  norm_num
  split_ifs <;> (try (exfalso; omega)) <;> (try rfl) <;> ring_nf

lemma build_weeks_eq (n : Int) :
    build_weeks n =
      (if toDayNumber (yearOf n) (monthOf n) (days_in_month (yearOf n) (monthOf n))
          < (toDayNumber (yearOf n) (monthOf n) 1
              - num_days_from_sunday (toDayNumber (yearOf n) (monthOf n) 1)) + 28 then
        [week_row 7 (toDayNumber (yearOf n) (monthOf n) 1
            - num_days_from_sunday (toDayNumber (yearOf n) (monthOf n) 1)),
         week_row 7 ((toDayNumber (yearOf n) (monthOf n) 1
            - num_days_from_sunday (toDayNumber (yearOf n) (monthOf n) 1)) + 7),
         week_row 7 ((toDayNumber (yearOf n) (monthOf n) 1
            - num_days_from_sunday (toDayNumber (yearOf n) (monthOf n) 1)) + 14),
         week_row 7 ((toDayNumber (yearOf n) (monthOf n) 1
            - num_days_from_sunday (toDayNumber (yearOf n) (monthOf n) 1)) + 21)]
      else if toDayNumber (yearOf n) (monthOf n) (days_in_month (yearOf n) (monthOf n))
          < (toDayNumber (yearOf n) (monthOf n) 1
              - num_days_from_sunday (toDayNumber (yearOf n) (monthOf n) 1)) + 35 then
        [week_row 7 (toDayNumber (yearOf n) (monthOf n) 1
            - num_days_from_sunday (toDayNumber (yearOf n) (monthOf n) 1)),
         week_row 7 ((toDayNumber (yearOf n) (monthOf n) 1
            - num_days_from_sunday (toDayNumber (yearOf n) (monthOf n) 1)) + 7),
         week_row 7 ((toDayNumber (yearOf n) (monthOf n) 1
            - num_days_from_sunday (toDayNumber (yearOf n) (monthOf n) 1)) + 14),
         week_row 7 ((toDayNumber (yearOf n) (monthOf n) 1
            - num_days_from_sunday (toDayNumber (yearOf n) (monthOf n) 1)) + 21),
         week_row 7 ((toDayNumber (yearOf n) (monthOf n) 1
            - num_days_from_sunday (toDayNumber (yearOf n) (monthOf n) 1)) + 28)]
      else
        [week_row 7 (toDayNumber (yearOf n) (monthOf n) 1
            - num_days_from_sunday (toDayNumber (yearOf n) (monthOf n) 1)),
         week_row 7 ((toDayNumber (yearOf n) (monthOf n) 1
            - num_days_from_sunday (toDayNumber (yearOf n) (monthOf n) 1)) + 7),
         week_row 7 ((toDayNumber (yearOf n) (monthOf n) 1
            - num_days_from_sunday (toDayNumber (yearOf n) (monthOf n) 1)) + 14),
         week_row 7 ((toDayNumber (yearOf n) (monthOf n) 1
            - num_days_from_sunday (toDayNumber (yearOf n) (monthOf n) 1)) + 21),
         week_row 7 ((toDayNumber (yearOf n) (monthOf n) 1
            - num_days_from_sunday (toDayNumber (yearOf n) (monthOf n) 1)) + 28),
         week_row 7 ((toDayNumber (yearOf n) (monthOf n) 1
            - num_days_from_sunday (toDayNumber (yearOf n) (monthOf n) 1)) + 35)]) := by
  unfold build_weeks
  rw [with_day_one, with_day_dim]
  simp only [Option.getD_some]
  rw [sunday_start_spec 7 _ (ndfs_lt_7 _), build_weeks_go_6]

/-- Claim C7: for every reference date, build_weeks returns between 4 and 6
rows, each row being 7 consecutive dates starting on a Sunday, the grid
covers every day of the reference month, and for any date in March 2024 the
grid starts on Sunday February 25 2024 and contains March 31 2024. -/
theorem build_weeks_grid_spec (n : Int) :
    (4 ≤ (build_weeks n).length ∧ (build_weeks n).length ≤ 6) ∧
    (∀ w ∈ build_weeks n, ∃ a, num_days_from_sunday a = 0 ∧
        w = [a, a+1, a+2, a+3, a+4, a+5, a+6]) ∧
    (∀ d : Nat, 1 ≤ d → d ≤ days_in_month (yearOf n) (monthOf n) →
        toDayNumber (yearOf n) (monthOf n) d ∈ (build_weeks n).flatten) ∧
    ((List.range 31).all (fun i =>
        decide ((build_weeks (toDayNumber 2024 3 (i+1))).flatten.head?
          = some (toDayNumber 2024 2 25))
        && decide (toDayNumber 2024 3 31 ∈ (build_weeks (toDayNumber 2024 3 (i+1))).flatten)) = true
      ∧ num_days_from_sunday (toDayNumber 2024 2 25) = 0) := by
  have h0 := ndfs_sunday_start (toDayNumber (yearOf n) (monthOf n) 1)
  have h7 := ndfs_lt_7 (toDayNumber (yearOf n) (monthOf n) 1)
  have hdim := days_in_month_bounds (yearOf n) (monthOf n)
  have hlin := toDayNumber_linear (yearOf n) (monthOf n)
    (days_in_month (yearOf n) (monthOf n)) (by omega)
  refine ⟨?_, ?_, ?_, by decide, by decide⟩
  · rw [build_weeks_eq]
    split_ifs <;> simp
  · rw [build_weeks_eq]
    split_ifs <;> intro w hw <;> simp only [List.mem_cons, List.mem_singleton] at hw <;>
      rcases hw with rfl | rfl | rfl | rfl | rfl | rfl | hw <;>
      first
        | exact ⟨_, by unfold num_days_from_sunday at h0 ⊢; omega, week_row_eq _⟩
        | simp at hw
  · intro d h1 h2
    have hd := toDayNumber_linear (yearOf n) (monthOf n) d h1
    rw [build_weeks_eq]
    rw [hlin] at *
    split_ifs with hc1 hc2 <;>
      simp only [week_row_eq, List.flatten, List.append_nil, List.cons_append, List.nil_append,
        List.mem_cons, List.mem_singleton, hd] <;>
      omega

theorem build_weeks_grid_spec_witness :
    ((1 : Nat) ≤ 31
      ∧ (31 : Nat) ≤ days_in_month (yearOf (toDayNumber 2024 3 15)) (monthOf (toDayNumber 2024 3 15))) ∧
    toDayNumber (yearOf (toDayNumber 2024 3 15)) (monthOf (toDayNumber 2024 3 15)) 31
      ∈ (build_weeks (toDayNumber 2024 3 15)).flatten :=
  ⟨⟨by decide, by decide⟩,
   (build_weeks_grid_spec (toDayNumber 2024 3 15)).2.2.1 31 (by decide) (by decide)⟩

/-- Claim C8 (amended): next_year and prev_year keep the month but select day 1 of
the target month (they do not preserve the selected day-of-month), rebuild
the grid, and set a Day selection. -/
theorem year_jump_spec (mv : MonthView)
    (hm : 1 ≤ monthOf mv.current_date ∧ monthOf mv.current_date ≤ 12) :
    (mv.next_year).current_date
      = toDayNumber (yearOf mv.current_date + 1) (monthOf mv.current_date) 1 ∧
    (mv.next_year).selection.selection_type
      = .day (toDayNumber (yearOf mv.current_date + 1) (monthOf mv.current_date) 1) ∧
    (mv.next_year).weeks
      = build_weeks (toDayNumber (yearOf mv.current_date + 1) (monthOf mv.current_date) 1) ∧
    (mv.prev_year).current_date
      = toDayNumber (yearOf mv.current_date - 1) (monthOf mv.current_date) 1 ∧
    (mv.prev_year).selection.selection_type
      = .day (toDayNumber (yearOf mv.current_date - 1) (monthOf mv.current_date) 1) ∧
    (mv.prev_year).weeks
      = build_weeks (toDayNumber (yearOf mv.current_date - 1) (monthOf mv.current_date) 1) := by
  have hd1 := days_in_month_bounds (yearOf mv.current_date + 1) (monthOf mv.current_date)
  have hd2 := days_in_month_bounds (yearOf mv.current_date - 1) (monthOf mv.current_date)
  unfold MonthView.next_year MonthView.prev_year from_ymd_opt
  rw [if_pos ⟨hm.1, hm.2, le_refl 1, by omega⟩, if_pos ⟨hm.1, hm.2, le_refl 1, by omega⟩]
  simp only [Option.getD_some]
  unfold MonthView.transition_to_month MonthView.select_day
  exact ⟨rfl, rfl, rfl, rfl, rfl, rfl⟩

theorem year_jump_spec_witness :
    (1 ≤ monthOf (MonthView.new (toDayNumber 2024 3 15)).current_date ∧
      monthOf (MonthView.new (toDayNumber 2024 3 15)).current_date ≤ 12) ∧
    ((MonthView.new (toDayNumber 2024 3 15)).next_year).selection.selection_type
      = .day (toDayNumber
          (yearOf (MonthView.new (toDayNumber 2024 3 15)).current_date + 1)
          (monthOf (MonthView.new (toDayNumber 2024 3 15)).current_date) 1) :=
  ⟨⟨by decide, by decide⟩,
   (year_jump_spec (MonthView.new (toDayNumber 2024 3 15)) ⟨by decide, by decide⟩).2.1⟩

/-- Claim C8 counterexample: with March 15 2024 selected, next_year selects
March 1 2025, not March 15 2025: the day-of-month is not preserved. -/
theorem year_jump_not_preserve_day :
    (MonthView.new (toDayNumber 2024 3 15)).selection.selection_type
      = .day (toDayNumber 2024 3 15) ∧
    ((MonthView.new (toDayNumber 2024 3 15)).next_year).selection.selection_type
      = .day (toDayNumber 2025 3 1) ∧
    SelectionType.day (toDayNumber 2025 3 1) ≠ .day (toDayNumber 2025 3 15) := by
  refine ⟨by decide, by decide, by decide⟩

/-- Claim C9 (amended): from a Day selection whose week-back target stays in the
current month, move_up selects the day one week back when that day has no
tasks, but descends into a Task selection of its lowest-order task when it
has tasks. -/
theorem move_up_week_back_spec (mv : MonthView) (tasks : List Task) (d : Int)
    (hsel : mv.selection.selection_type = .day d)
    (hm : monthOf (d - 7) = monthOf mv.current_date)
    (hy : yearOf (d - 7) = yearOf mv.current_date) :
    (tasks.filter (fun t => t.is_on_date (d - 7)) = [] →
      (mv.move_up tasks).selection.selection_type = .day (d - 7)) ∧
    (∀ (t : Task) (ts : List Task),
      (tasks.filter (fun t => t.is_on_date (d - 7))).mergeSort ord_le = t :: ts →
      (mv.move_up tasks).selection.selection_type = .task t.id) := by
  have e : mv.move_up tasks
      = (match (tasks.filter (fun t => t.is_on_date (d - 7))).mergeSort ord_le with
        | [] => mv.select_day (d - 7)
        | t :: _ => (mv.select_day (d - 7)).select_task t.id) := by
    unfold MonthView.move_up
    rw [hsel]
    simp only
    rw [if_neg (by simp [hm, hy])]
  constructor
  · intro hemp
    rw [e, hemp, List.mergeSort_nil]
    rfl
  · intro t ts hts
    rw [e, hts]
    rfl

theorem move_up_week_back_spec_witness :
    ((MonthView.new (toDayNumber 2024 3 15)).selection.selection_type
        = .day (toDayNumber 2024 3 15) ∧
      monthOf (toDayNumber 2024 3 15 - 7)
        = monthOf (MonthView.new (toDayNumber 2024 3 15)).current_date ∧
      yearOf (toDayNumber 2024 3 15 - 7)
        = yearOf (MonthView.new (toDayNumber 2024 3 15)).current_date ∧
      ([] : List Task).filter (fun t => t.is_on_date (toDayNumber 2024 3 15 - 7)) = []) ∧
    ((MonthView.new (toDayNumber 2024 3 15)).move_up []).selection.selection_type
      = .day (toDayNumber 2024 3 15 - 7) :=
  ⟨⟨by decide, by decide, by decide, by decide⟩,
   (move_up_week_back_spec (MonthView.new (toDayNumber 2024 3 15)) [] (toDayNumber 2024 3 15)
      (by decide) (by decide) (by decide)).1 (by decide)⟩

unseal List.merge List.mergeSort in
/-- Claim C9 counterexample: with March 15 2024 selected and a task on March 8,
move_up produces a Task selection of that task, not Day(March 8). -/
theorem move_up_not_day_selection :
    (MonthView.new (toDayNumber 2024 3 15)).selection.selection_type
      = .day (toDayNumber 2024 3 15) ∧
    monthOf (toDayNumber 2024 3 15 - 7)
      = monthOf (MonthView.new (toDayNumber 2024 3 15)).current_date ∧
    yearOf (toDayNumber 2024 3 15 - 7)
      = yearOf (MonthView.new (toDayNumber 2024 3 15)).current_date ∧
    ((MonthView.new (toDayNumber 2024 3 15)).move_up [task8]).selection.selection_type
      = .task "t8" ∧
    SelectionType.task "t8" ≠ .day (toDayNumber 2024 3 15 - 7) := by
  refine ⟨by decide, by decide, by decide, by decide, by decide⟩

end Taskim
